import Mathlib

/-!
Verification development for the ur-mavrouter MAVLink router.

This file gives a shallow embedding, in Lean 4, of the parts of the C++
source that the checked properties are about:

* `Mainloop::route_msg` / `Mainloop::write_msg` (src/mainloop.cpp),
* `Mainloop::request_exit` / `Mainloop::loop` (src/mainloop.cpp),
* the group-linking pass of `Mainloop::add_endpoints` (src/mainloop.cpp),
* `DedupImpl::check_packet` / `Dedup::check_packet` (src/dedup.cpp),
* `RpcController::executeOperationOnThread` / `getThreadNamesForTarget` /
  `executeRequest` (src/rpc-mechanisms/RpcController.cpp),
* `ExtensionManager::assignAvailableExtensionPoint` / `createExtension` /
  `stopExtension` (src/mavlink-extensions/ExtensionManager.cpp).

Machine integers are modelled as `Nat` with an explicit `% 2 ^ 32` where the
C++ performs `uint32_t` arithmetic.  Fallible operations return their status
values exactly as the source does.  Logging, epoll bookkeeping and byte-level
serialisation are not modelled; where a C++ function has an observable side
effect that the properties mention (a write submission, a thread-manager
call, a `request_exit` on some instance), the embedding returns an explicit
list of such actions.
-/

/-- Result of `Endpoint::accept_msg` (enum `Endpoint::AcceptState`). -/
inductive AcceptState
  | Accepted
  | Filtered
  | Rejected
deriving DecidableEq, Repr

/-- A parsed MAVLink frame (`struct buffer`): the raw payload bytes.  The
header fields that `route_msg` merely logs are not modelled. -/
structure Buffer where
  data : List Nat
deriving DecidableEq, Repr

/-- A runtime endpoint as seen by `Mainloop::route_msg`: its file descriptor,
its `accept_msg` decision function and the return value of its
`Endpoint::write_msg` (an errno-style `Int`; `-32` is `-EPIPE`, `-11` is
`-EAGAIN`).  The endpoint class itself lives outside the routing code, so its
behaviour enters the routing model as an abstract function per endpoint. -/
structure Endpoint where
  fd : Nat
  accept_msg : Buffer → AcceptState
  write_ret : Buffer → Int

/-- Observable outcome of one `Mainloop::route_msg` call: the fds of the
endpoints to which a write was submitted via `Mainloop::write_msg` (in
iteration order), whether the local `unknown` flag survived to the end (in
which case `_errors_aggregate.msg_to_unknown` is incremented), and whether
`should_process_tcp_hangups` was set by a `-EPIPE` write result. -/
structure RouteEffects where
  writes : List Nat
  unknown : Bool
  tcp_hangups : Bool
deriving DecidableEq, Repr

/-- One iteration of the endpoint loop in `Mainloop::route_msg`
(src/mainloop.cpp:355-400): `Accepted` submits `write_msg` and clears
`unknown`; `Filtered` clears `unknown`; `Rejected` does nothing. -/
def routeStep (buf : Buffer) (acc : RouteEffects) (e : Endpoint) : RouteEffects :=
  match e.accept_msg buf with
  | AcceptState.Accepted =>
      { acc with
        writes := acc.writes ++ [e.fd]
        tcp_hangups := acc.tcp_hangups || (e.write_ret buf == -32)
        unknown := false }
  | AcceptState.Filtered => { acc with unknown := false }
  | AcceptState.Rejected => acc

/-- `Mainloop::route_msg` (src/mainloop.cpp:355-400): walk `g_endpoints`
with `unknown` initially `true`; afterwards `unknown = true` is exactly the
case in which the source increments `_errors_aggregate.msg_to_unknown`. -/
def route_msg (eps : List Endpoint) (buf : Buffer) : RouteEffects :=
  eps.foldl (routeStep buf) { writes := [], unknown := true, tcp_hangups := false }

lemma routeStep_writes_mono (buf : Buffer) (acc : RouteEffects) (e : Endpoint) :
    (routeStep buf acc e).writes =
      acc.writes ++ (if e.accept_msg buf = AcceptState.Accepted then [e.fd] else []) := by
  unfold routeStep
  cases h : e.accept_msg buf <;> simp [h]

lemma route_fold_writes (buf : Buffer) (eps : List Endpoint) (acc : RouteEffects) :
    (eps.foldl (routeStep buf) acc).writes =
      acc.writes ++
        (eps.filter (fun e => e.accept_msg buf == AcceptState.Accepted)).map Endpoint.fd := by
  induction eps generalizing acc with
  | nil => simp
  | cons e rest ih =>
      rw [List.foldl_cons, ih]
      rw [routeStep_writes_mono]
      by_cases h : e.accept_msg buf = AcceptState.Accepted
      · simp [h, List.filter_cons]
      · simp [h, List.filter_cons]

lemma route_fold_unknown (buf : Buffer) (eps : List Endpoint) (acc : RouteEffects) :
    (eps.foldl (routeStep buf) acc).unknown =
      (acc.unknown && eps.all (fun e => e.accept_msg buf == AcceptState.Rejected)) := by
  induction eps generalizing acc with
  | nil => simp
  | cons e rest ih =>
      rw [List.foldl_cons, ih]
      cases h : e.accept_msg buf <;> simp [routeStep, h, Bool.and_assoc]

/-- C1.  For every frame routed by `route_msg`, a write is submitted (via
`write_msg`) to exactly those endpoints whose `accept_msg` returned
`Accepted`, in endpoint-list order, and to no others; consequently the number
of submitted writes equals the number of `Accepted` results. -/
theorem route_msg_writes_exactly_accepting (eps : List Endpoint) (buf : Buffer) :
    (route_msg eps buf).writes =
        (eps.filter (fun e => e.accept_msg buf == AcceptState.Accepted)).map Endpoint.fd
      ∧ (route_msg eps buf).writes.length =
          eps.countP (fun e => e.accept_msg buf == AcceptState.Accepted) := by
  have h := route_fold_writes buf eps { writes := [], unknown := true, tcp_hangups := false }
  unfold route_msg
  refine ⟨by simpa using h, ?_⟩
  rw [h]
  simp [List.countP_eq_length_filter]

/-- An endpoint whose outgoing filter drops every frame (`accept_msg` always
returns `Filtered`); used as the concrete input refuting claim C4. -/
def filteringEndpoint : Endpoint :=
  { fd := 3, accept_msg := fun _ => AcceptState.Filtered, write_ret := fun _ => 0 }

/-- C4 (counterexample).  The claim says `msg_to_unknown` is incremented
exactly when no endpoint accepted the frame, even if some endpoint returned
`Filtered`.  With a single endpoint that filters the frame, no endpoint
accepts, yet the source clears `unknown`, so the counter is not incremented:
the code counts a filtered frame as delivered-to-known. -/
theorem route_msg_unknown_counterexample :
    (route_msg [filteringEndpoint] { data := [] }).unknown = false
      ∧ ([filteringEndpoint].countP
          (fun e => e.accept_msg { data := [] } == AcceptState.Accepted)) = 0 := by
  constructor
  · rfl
  · rfl

/-- C4 (amended).  `route_msg` increments the `msg_to_unknown` aggregate
exactly when every endpoint's `accept_msg` returned `Rejected` — that is,
when no endpoint accepted *and* no endpoint filtered the frame. -/
theorem route_msg_unknown_iff_all_rejected (eps : List Endpoint) (buf : Buffer) :
    (route_msg eps buf).unknown = true ↔
      ∀ e ∈ eps, e.accept_msg buf = AcceptState.Rejected := by
  unfold route_msg
  rw [route_fold_unknown]
  simp [List.all_eq_true]

/-! ## De-duplication cache (src/dedup.cpp)

`DedupImpl` keeps a FIFO queue of `(timestamp, hash)` pairs and an unordered
set of hashes.  Timestamps are `uint32_t` milliseconds; arithmetic on them is
modelled as `Nat` reduced by `% 2 ^ 32` exactly where the C++ computes with
`uint32_t`.  `std::hash<std::string>` of the payload bytes is modelled as an
injective hash, i.e. the payload byte list itself stands for its hash value
(hash collisions between distinct payloads are idealised away). -/

/-- 2 ^ 32, the modulus of `uint32_t` arithmetic. -/
def U32MOD : Nat := 4294967296

/-- Reduction of a `Nat` to the `uint32_t` range. -/
def u32 (n : Nat) : Nat := n % U32MOD

/-- State of `DedupImpl`: the `_time_hash_queue` (front at the head) and the
`_packet_hash_set` (membership list). -/
structure DedupImplState where
  time_hash_queue : List (Nat × List Nat)
  packet_hash_set : List (List Nat)
deriving DecidableEq, Repr

/-- The clean-up `while` loop at the top of `DedupImpl::check_packet`
(src/dedup.cpp:44-53): pop front entries with
`timestamp > front.first + dedup_period_ms` (a `uint32_t` sum), erasing each
popped hash from the set. -/
def dedupEvict (timestamp period : Nat) :
    List (Nat × List Nat) → List (List Nat) → List (Nat × List Nat) × List (List Nat)
  | [], s => ([], s)
  | (t0, h0) :: rest, s =>
      if u32 (t0 + period) < timestamp then
        dedupEvict timestamp period rest (s.erase h0)
      else ((t0, h0) :: rest, s)

/-- `DedupImpl::check_packet` (src/dedup.cpp:36-71): truncate the clock value
to `uint32_t`, clean up expired entries, then test set membership; a new hash
is inserted into both structures.  Returns the C++ `bool` (`true` = new). -/
def DedupImpl_check_packet (payload : List Nat) (now period : Nat)
    (st : DedupImplState) : Bool × DedupImplState :=
  let timestamp := u32 now
  let qs := dedupEvict timestamp period st.time_hash_queue st.packet_hash_set
  if payload ∈ qs.2 then (false, { time_hash_queue := qs.1, packet_hash_set := qs.2 })
  else (true, { time_hash_queue := qs.1 ++ [(timestamp, payload)],
                packet_hash_set := payload :: qs.2 })

/-- Return type of `Dedup::check_packet` (enum `Dedup::PacketStatus`). -/
inductive PacketStatus
  | NEW_PACKET_OR_TIMED_OUT
  | ALREADY_EXISTS_IN_BUFFER
deriving DecidableEq, Repr

/-- State of the `Dedup` wrapper: the configured period and the impl state. -/
structure DedupState where
  dedup_period_ms : Nat
  impl : DedupImplState
deriving DecidableEq, Repr

/-- `Dedup::check_packet` (src/dedup.cpp:136-162): `period == 0` bypasses the
cache; otherwise delegate to `DedupImpl::check_packet`. -/
def Dedup_check_packet (payload : List Nat) (now : Nat) (st : DedupState) :
    PacketStatus × DedupState :=
  if st.dedup_period_ms = 0 then (PacketStatus.NEW_PACKET_OR_TIMED_OUT, st)
  else
    match DedupImpl_check_packet payload now st.dedup_period_ms st.impl with
    | (true, impl2) =>
        (PacketStatus.NEW_PACKET_OR_TIMED_OUT, { st with impl := impl2 })
    | (false, impl2) =>
        (PacketStatus.ALREADY_EXISTS_IN_BUFFER, { st with impl := impl2 })

/-- One trace step: feed one `(time, payload)` check into the impl state. -/
def dedupStep (period : Nat) (st : DedupImplState) (c : Nat × List Nat) : DedupImplState :=
  (DedupImpl_check_packet c.2 c.1 period st).2

/-- Run a list of `(time, payload)` checks from the empty impl state. -/
def dedupRun (period : Nat) (tr : List (Nat × List Nat)) : DedupImplState :=
  tr.foldl (dedupStep period) { time_hash_queue := [], packet_hash_set := [] }

/-- Payload `p` was inserted at time `s` during trace `tr`: some check of the
trace is `(s, p)` and, run against the state accumulated so far, it returned
`true` (new packet). -/
def insertedAt (period : Nat) (tr : List (Nat × List Nat)) (p : List Nat) (s : Nat) : Prop :=
  ∃ i : Fin tr.length, tr.get i = (s, p) ∧
    (DedupImpl_check_packet p s period (dedupRun period (tr.take i.val))).1 = true

/-- A well-formed check trace for a given period: clock values are
nondecreasing and every `time + period` stays below 2 ^ 32 (so the `uint32_t`
arithmetic of the source does not wrap). -/
def TraceOk (period : Nat) (tr : List (Nat × List Nat)) : Prop :=
  tr.Pairwise (fun a b => a.1 ≤ b.1) ∧ ∀ c ∈ tr, c.1 + period < U32MOD

/-- Time of the last check of a trace (0 for the empty trace). -/
def lastTime (tr : List (Nat × List Nat)) : Nat :=
  match tr.getLast? with
  | some c => c.1
  | none => 0

/-- Internal invariant of the dedup structures after any well-formed trace
whose times are bounded by `T`: queue times are sorted, queued hashes are
distinct, the set mirrors the queue, and times are in range. -/
structure DedupInv (period T : Nat) (st : DedupImplState) : Prop where
  sorted : st.time_hash_queue.Pairwise (fun a b => a.1 ≤ b.1)
  hashNodup : (st.time_hash_queue.map Prod.snd).Nodup
  setNodup : st.packet_hash_set.Nodup
  corr : ∀ h, h ∈ st.packet_hash_set ↔ ∃ u, (u, h) ∈ st.time_hash_queue
  timeBound : ∀ e ∈ st.time_hash_queue, e.1 ≤ T ∧ e.1 + period < U32MOD

lemma u32_eq_of_lt {n : Nat} (h : n < U32MOD) : u32 n = n := Nat.mod_eq_of_lt h

lemma dedupEvict_sublist (timestamp period : Nat) (q : List (Nat × List Nat))
    (s : List (List Nat)) : (dedupEvict timestamp period q s).1.Sublist q := by
  induction q generalizing s with
  | nil => simp [dedupEvict]
  | cons hd rest ih =>
      obtain ⟨t0, h0⟩ := hd
      rw [dedupEvict]
      by_cases h : u32 (t0 + period) < timestamp
      · simp only [h, if_true]
        exact (ih (s.erase h0)).trans (List.sublist_cons_self _ _)
      · simp [h]

lemma dedupEvict_queue_mem (timestamp period : Nat) (q : List (Nat × List Nat))
    (s : List (List Nat))
    (hsort : q.Pairwise (fun a b => a.1 ≤ b.1))
    (hb : ∀ e ∈ q, e.1 + period < U32MOD) :
    ∀ e, e ∈ (dedupEvict timestamp period q s).1 ↔
      (e ∈ q ∧ timestamp ≤ e.1 + period) := by
  induction q generalizing s with
  | nil => simp [dedupEvict]
  | cons hd rest ih =>
      obtain ⟨t0, h0⟩ := hd
      intro e
      rw [dedupEvict]
      by_cases h : u32 (t0 + period) < timestamp
      · have hlt : t0 + period < timestamp := by
          rwa [u32_eq_of_lt (hb (t0, h0) (List.mem_cons_self _ _))] at h
        simp only [h, if_true]
        rw [ih (s.erase h0) hsort.of_cons (fun e he => hb e (List.mem_cons_of_mem _ he)) e]
        constructor
        · rintro ⟨he, hts⟩
          exact ⟨List.mem_cons_of_mem _ he, hts⟩
        · rintro ⟨he, hts⟩
          rcases List.mem_cons.mp he with rfl | he
          · exact absurd hts (by omega)
          · exact ⟨he, hts⟩
      · have hle : timestamp ≤ t0 + period := by
          rw [u32_eq_of_lt (hb (t0, h0) (List.mem_cons_self _ _))] at h
          omega
        simp only [h, if_false]
        constructor
        · intro he
          refine ⟨he, ?_⟩
          rcases List.mem_cons.mp he with rfl | he
          · exact hle
          · have := (List.pairwise_cons.mp hsort).1 e he
            omega
        · exact fun h => h.1

lemma dedupEvict_set_inv (timestamp period : Nat) (q : List (Nat × List Nat))
    (s : List (List Nat))
    (hnd : (q.map Prod.snd).Nodup) (hsnd : s.Nodup)
    (hcorr : ∀ h, h ∈ s ↔ ∃ u, (u, h) ∈ q) :
    (∀ h, h ∈ (dedupEvict timestamp period q s).2 ↔
        ∃ u, (u, h) ∈ (dedupEvict timestamp period q s).1)
      ∧ (dedupEvict timestamp period q s).2.Nodup := by
  induction q generalizing s with
  | nil =>
      simp only [dedupEvict]
      refine ⟨fun h => ?_, hsnd⟩
      rw [hcorr h]
  | cons hd rest ih =>
      obtain ⟨t0, h0⟩ := hd
      have hnd2 : (h0 :: rest.map Prod.snd).Nodup := by simpa using hnd
      rw [dedupEvict]
      by_cases h : u32 (t0 + period) < timestamp
      · simp only [h, if_true]
        have hh0 : h0 ∉ rest.map Prod.snd := (List.nodup_cons.mp hnd2).1
        refine ih (s.erase h0) (List.nodup_cons.mp hnd2).2
          (hsnd.erase h0) (fun x => ?_)
        rw [List.Nodup.mem_erase_iff hsnd, hcorr x]
        constructor
        · rintro ⟨hne, u, hu⟩
          rcases List.mem_cons.mp hu with heq | hu
          · cases heq; exact absurd rfl hne
          · exact ⟨u, hu⟩
        · rintro ⟨u, hu⟩
          have hxne : x ≠ h0 := by
            intro rfl_eq
            subst rfl_eq
            exact hh0 (List.mem_map.mpr ⟨(u, x), hu, rfl⟩)
          exact ⟨hxne, u, List.mem_cons_of_mem _ hu⟩
      · simp only [h, if_false]
        exact ⟨hcorr, hsnd⟩

lemma check_packet_fst_iff (period T t : Nat) (p : List Nat) (st : DedupImplState)
    (inv : DedupInv period T st) (ht : t < U32MOD) :
    (DedupImpl_check_packet p t period st).1 = true ↔
      ¬ ∃ u, (u, p) ∈ st.time_hash_queue ∧ t ≤ u + period := by
  have hqmem := dedupEvict_queue_mem t period st.time_hash_queue st.packet_hash_set
    inv.sorted (fun e he => (inv.timeBound e he).2)
  have hset := dedupEvict_set_inv t period st.time_hash_queue st.packet_hash_set
    inv.hashNodup inv.setNodup inv.corr
  unfold DedupImpl_check_packet
  simp only [u32_eq_of_lt ht]
  by_cases hmem :
      p ∈ (dedupEvict t period st.time_hash_queue st.packet_hash_set).2
  · simp only [hmem, if_true]
    constructor
    · intro hfalse
      exact absurd hfalse (by simp)
    · intro hno
      exfalso
      obtain ⟨u, hu⟩ := (hset.1 p).mp hmem
      exact hno ⟨u, ((hqmem (u, p)).mp hu).1, ((hqmem (u, p)).mp hu).2⟩
  · simp only [hmem, if_false]
    constructor
    · intro _
      rintro ⟨u, huq, hle⟩
      exact hmem ((hset.1 p).mpr ⟨u, (hqmem (u, p)).mpr ⟨huq, hle⟩⟩)
    · intro _
      trivial

lemma dedupStep_queue (period T t : Nat) (p₀ : List Nat) (st : DedupImplState)
    (inv : DedupInv period T st) (hb : t + period < U32MOD) :
    ∀ s q, (s, q) ∈ (dedupStep period st (t, p₀)).time_hash_queue ↔
      (((s, q) ∈ st.time_hash_queue ∧ t ≤ s + period) ∨
        ((s, q) = (t, p₀) ∧ ¬ ∃ u, (u, p₀) ∈ st.time_hash_queue ∧ t ≤ u + period)) := by
  have htlt : t < U32MOD := by omega
  have hqmem := dedupEvict_queue_mem t period st.time_hash_queue st.packet_hash_set
    inv.sorted (fun e he => (inv.timeBound e he).2)
  have hset := dedupEvict_set_inv t period st.time_hash_queue st.packet_hash_set
    inv.hashNodup inv.setNodup inv.corr
  have hlive : (p₀ ∈ (dedupEvict t period st.time_hash_queue st.packet_hash_set).2) ↔
      ∃ u, (u, p₀) ∈ st.time_hash_queue ∧ t ≤ u + period := by
    rw [hset.1 p₀]
    constructor
    · rintro ⟨u, hu⟩
      exact ⟨u, ((hqmem (u, p₀)).mp hu).1, ((hqmem (u, p₀)).mp hu).2⟩
    · rintro ⟨u, hu1, hu2⟩
      exact ⟨u, (hqmem (u, p₀)).mpr ⟨hu1, hu2⟩⟩
  intro s q
  unfold dedupStep DedupImpl_check_packet
  simp only [u32_eq_of_lt htlt]
  by_cases hmem :
      p₀ ∈ (dedupEvict t period st.time_hash_queue st.packet_hash_set).2
  · simp only [hmem, if_true]
    rw [hqmem (s, q)]
    constructor
    · exact fun h => Or.inl h
    · rintro (h | ⟨_, hno⟩)
      · exact h
      · exact absurd (hlive.mp hmem) hno
  · simp only [hmem, if_false, List.mem_append, List.mem_singleton]
    rw [hqmem (s, q)]
    constructor
    · rintro (h | h)
      · exact Or.inl h
      · exact Or.inr ⟨h, fun hex => hmem (hlive.mpr hex)⟩
    · rintro (h | ⟨heq, _⟩)
      · exact Or.inl h
      · exact Or.inr heq

lemma dedupStep_inv (period T t : Nat) (p₀ : List Nat) (st : DedupImplState)
    (inv : DedupInv period T st) (hT : T ≤ t) (hb : t + period < U32MOD) :
    DedupInv period t (dedupStep period st (t, p₀)) := by
  have htlt : t < U32MOD := by omega
  have hsub := dedupEvict_sublist t period st.time_hash_queue st.packet_hash_set
  have hqmem := dedupEvict_queue_mem t period st.time_hash_queue st.packet_hash_set
    inv.sorted (fun e he => (inv.timeBound e he).2)
  have hset := dedupEvict_set_inv t period st.time_hash_queue st.packet_hash_set
    inv.hashNodup inv.setNodup inv.corr
  have hsorted' := inv.sorted.sublist hsub
  have hnd' : ((dedupEvict t period st.time_hash_queue st.packet_hash_set).1.map
      Prod.snd).Nodup := inv.hashNodup.sublist (hsub.map Prod.snd)
  have hbound' : ∀ e ∈ (dedupEvict t period st.time_hash_queue st.packet_hash_set).1,
      e.1 ≤ t ∧ e.1 + period < U32MOD := by
    intro e he
    have := inv.timeBound e (hsub.mem he)
    exact ⟨le_trans this.1 hT, this.2⟩
  unfold dedupStep DedupImpl_check_packet
  simp only [u32_eq_of_lt htlt]
  by_cases hmem :
      p₀ ∈ (dedupEvict t period st.time_hash_queue st.packet_hash_set).2
  · simp only [hmem, if_true]
    exact { sorted := hsorted', hashNodup := hnd', setNodup := hset.2,
            corr := hset.1, timeBound := hbound' }
  · simp only [hmem, if_false]
    have hp₀ : p₀ ∉ (dedupEvict t period st.time_hash_queue st.packet_hash_set).1.map
        Prod.snd := by
      intro hin
      obtain ⟨⟨u, x⟩, hu, hx⟩ := List.mem_map.mp hin
      cases hx
      exact hmem ((hset.1 _).mpr ⟨u, hu⟩)
    refine { sorted := ?_, hashNodup := ?_, setNodup := ?_, corr := ?_, timeBound := ?_ }
    · rw [List.pairwise_append]
      refine ⟨hsorted', List.pairwise_singleton _ _, ?_⟩
      intro a ha b hbm
      rcases List.mem_singleton.mp hbm with rfl
      exact (hbound' a ha).1
    · rw [List.map_append]
      simp only [List.map_cons, List.map_nil]
      rw [List.nodup_append]
      refine ⟨hnd', List.nodup_singleton _, ?_⟩
      intro a ha hamem
      rcases List.mem_singleton.mp hamem with rfl
      exact hp₀ ha
    · exact List.nodup_cons.mpr ⟨hmem, hset.2⟩
    · intro h
      rw [List.mem_cons, hset.1 h]
      constructor
      · rintro (rfl | ⟨u, hu⟩)
        · exact ⟨t, List.mem_append.mpr (Or.inr (List.mem_singleton_self _))⟩
        · exact ⟨u, List.mem_append.mpr (Or.inl hu)⟩
      · rintro ⟨u, hu⟩
        rcases List.mem_append.mp hu with hu | hu
        · exact Or.inr ⟨u, hu⟩
        · have heq := List.mem_singleton.mp hu
          exact Or.inl (congrArg Prod.snd heq)
    · intro e he
      rcases List.mem_append.mp he with he | he
      · exact hbound' e he
      · rcases List.mem_singleton.mp he with rfl
        exact ⟨le_refl t, hb⟩

lemma dedupRun_append (period : Nat) (tr : List (Nat × List Nat)) (c : Nat × List Nat) :
    dedupRun period (tr ++ [c]) = dedupStep period (dedupRun period tr) c := by
  unfold dedupRun
  rw [List.foldl_append]
  rfl

lemma lastTime_append (tr : List (Nat × List Nat)) (c : Nat × List Nat) :
    lastTime (tr ++ [c]) = c.1 := by
  unfold lastTime
  rw [List.getLast?_concat]

lemma lastTime_le_of_bound (tr : List (Nat × List Nat)) (t : Nat)
    (h : ∀ c ∈ tr, c.1 ≤ t) : lastTime tr ≤ t := by
  unfold lastTime
  cases hl : tr.getLast? with
  | none => exact Nat.zero_le t
  | some c => exact h c (List.mem_of_mem_getLast? hl)

lemma TraceOk_append_left {period : Nat} {tr : List (Nat × List Nat)}
    {c : Nat × List Nat} (h : TraceOk period (tr ++ [c])) : TraceOk period tr := by
  obtain ⟨hp, hb⟩ := h
  exact ⟨(List.pairwise_append.mp hp).1, fun x hx => hb x (List.mem_append_left _ hx)⟩

lemma TraceOk_append_time {period : Nat} {tr : List (Nat × List Nat)}
    {c : Nat × List Nat} (h : TraceOk period (tr ++ [c])) :
    ∀ x ∈ tr, x.1 ≤ c.1 := by
  obtain ⟨hp, _⟩ := h
  intro x hx
  exact (List.pairwise_append.mp hp).2.2 x hx c (List.mem_singleton_self _)

lemma insertedAt_append (period : Nat) (tr : List (Nat × List Nat))
    (c : Nat × List Nat) (q : List Nat) (s : Nat) :
    insertedAt period (tr ++ [c]) q s ↔
      insertedAt period tr q s ∨
        (c = (s, q) ∧ (DedupImpl_check_packet q s period (dedupRun period tr)).1 = true) := by
  unfold insertedAt
  constructor
  · rintro ⟨i, hget, hchk⟩
    rcases Nat.lt_or_ge i.val tr.length with hi | hi
    · left
      refine ⟨⟨i.val, hi⟩, ?_, ?_⟩
      · rw [← hget]
        exact (List.get_append i.val hi).symm
      · rwa [List.take_append_eq_append_take, Nat.sub_eq_zero_of_le (le_of_lt hi),
          List.take_zero, List.append_nil] at hchk
    · right
      have hlen : i.val = tr.length := by
        have := i.isLt
        simp only [List.length_append, List.length_singleton] at this
        omega
      have hgetc : (tr ++ [c]).get i = c := by
        rw [List.get_eq_getElem]
        exact List.getElem_concat_length tr c i.val hlen i.isLt
      have hc : c = (s, q) := by rw [← hgetc, hget]
      refine ⟨hc, ?_⟩
      rwa [hlen, List.take_left] at hchk
  · rintro (⟨i, hget, hchk⟩ | ⟨hc, hchk⟩)
    · refine ⟨⟨i.val, by simp [List.length_append]; omega⟩, ?_, ?_⟩
      · rw [← hget]
        exact List.get_append i.val i.isLt
      · rwa [List.take_append_eq_append_take, Nat.sub_eq_zero_of_le (le_of_lt i.isLt),
          List.take_zero, List.append_nil]
    · refine ⟨⟨tr.length, by simp [List.length_append]⟩, ?_, ?_⟩
      · rw [List.get_append_right] <;> simp [hc]
      · simpa [List.take_left] using hchk

lemma dedupRun_inv (period : Nat) (tr : List (Nat × List Nat)) (hok : TraceOk period tr) :
    DedupInv period (lastTime tr) (dedupRun period tr) := by
  induction tr using List.reverseRecOn with
  | nil =>
      exact { sorted := List.Pairwise.nil, hashNodup := List.nodup_nil,
              setNodup := List.nodup_nil,
              corr := by intro h; simp [dedupRun],
              timeBound := by intro e he; simp [dedupRun] at he }
  | append_singleton tr c ih =>
      have hok' := TraceOk_append_left hok
      have hinv := ih hok'
      have hT : lastTime tr ≤ c.1 :=
        lastTime_le_of_bound tr c.1 (TraceOk_append_time hok)
      have hb : c.1 + period < U32MOD :=
        hok.2 c (List.mem_append_right _ (List.mem_singleton_self _))
      rw [dedupRun_append, lastTime_append]
      obtain ⟨t, p⟩ := c
      exact dedupStep_inv period (lastTime tr) t p (dedupRun period tr) hinv hT hb

lemma dedupRun_queue_mem (period : Nat) (tr : List (Nat × List Nat))
    (hok : TraceOk period tr) (s : Nat) (q : List Nat) :
    (s, q) ∈ (dedupRun period tr).time_hash_queue ↔
      (insertedAt period tr q s ∧ lastTime tr ≤ s + period) := by
  induction tr using List.reverseRecOn with
  | nil =>
      simp only [dedupRun, List.foldl_nil]
      constructor
      · intro h
        simp at h
      · rintro ⟨⟨i, _, _⟩, _⟩
        exact absurd i.isLt (by simp)
  | append_singleton tr c ih =>
      have hok' := TraceOk_append_left hok
      have hinv := dedupRun_inv period tr hok'
      have hT : lastTime tr ≤ c.1 :=
        lastTime_le_of_bound tr c.1 (TraceOk_append_time hok)
      have hb : c.1 + period < U32MOD :=
        hok.2 c (List.mem_append_right _ (List.mem_singleton_self _))
      obtain ⟨t, p₀⟩ := c
      rw [dedupRun_append, lastTime_append,
        dedupStep_queue period (lastTime tr) t p₀ (dedupRun period tr) hinv hb s q,
        insertedAt_append]
      constructor
      · rintro (⟨hmem, hle⟩ | ⟨heq, hno⟩)
        · obtain ⟨hins, _⟩ := (ih hok').mp hmem
          exact ⟨Or.inl hins, hle⟩
        · have hchk : (DedupImpl_check_packet p₀ t period (dedupRun period tr)).1 = true := by
            rw [check_packet_fst_iff period (lastTime tr) t p₀ (dedupRun period tr) hinv
              (by omega)]
            intro hex
            obtain ⟨u, hu, hule⟩ := hex
            exact hno ⟨u, hu, hule⟩
          have hst : t = s ∧ p₀ = q := by
            constructor
            · exact (congrArg Prod.fst heq).symm
            · exact (congrArg Prod.snd heq).symm
          obtain ⟨rfl, rfl⟩ := hst
          exact ⟨Or.inr ⟨rfl, hchk⟩, by omega⟩
      · rintro ⟨hins | ⟨heq, hchk⟩, hle⟩
        · left
          refine ⟨(ih hok').mpr ⟨hins, ?_⟩, hle⟩
          calc lastTime tr ≤ t := hT
            _ ≤ s + period := hle
        · right
          have hst : t = s ∧ p₀ = q := by
            constructor
            · exact congrArg Prod.fst heq
            · exact congrArg Prod.snd heq
          obtain ⟨rfl, rfl⟩ := hst
          refine ⟨rfl, ?_⟩
          rw [check_packet_fst_iff period (lastTime tr) t p₀ (dedupRun period tr) hinv
            (by omega)] at hchk
          exact hchk

lemma Dedup_check_packet_fst (p : List Nat) (t period : Nat) (impl : DedupImplState)
    (hne : period ≠ 0) :
    ((Dedup_check_packet p t { dedup_period_ms := period, impl := impl }).1
        = PacketStatus.ALREADY_EXISTS_IN_BUFFER)
      ↔ (DedupImpl_check_packet p t period impl).1 = false := by
  unfold Dedup_check_packet
  simp only [hne, if_false]
  rcases h : DedupImpl_check_packet p t period impl with ⟨b, i2⟩
  cases b <;> simp

lemma dedup_window_core (period : Nat) (hp : 0 < period) (tr : List (Nat × List Nat))
    (t : Nat) (p : List Nat) (hok : TraceOk period tr)
    (hle : ∀ c ∈ tr, c.1 ≤ t) (ht : t + period < U32MOD) :
    (Dedup_check_packet p t
        { dedup_period_ms := period, impl := dedupRun period tr }).1
      = PacketStatus.ALREADY_EXISTS_IN_BUFFER
    ↔ ∃ s, insertedAt period tr p s ∧ t ≤ s + period := by
  have hinv := dedupRun_inv period tr hok
  have hfst := check_packet_fst_iff period (lastTime tr) t p (dedupRun period tr) hinv
    (by omega)
  have hTt : lastTime tr ≤ t := lastTime_le_of_bound tr t hle
  rw [Dedup_check_packet_fst p t period (dedupRun period tr) (Nat.pos_iff_ne_zero.mp hp)]
  have hbool : ((DedupImpl_check_packet p t period (dedupRun period tr)).1 = false)
      ↔ ¬ ((DedupImpl_check_packet p t period (dedupRun period tr)).1 = true) := by
    cases (DedupImpl_check_packet p t period (dedupRun period tr)).1 <;> simp
  rw [hbool, hfst, not_not]
  constructor
  · rintro ⟨u, hu, hule⟩
    obtain ⟨hins, _⟩ := (dedupRun_queue_mem period tr hok u p).mp hu
    exact ⟨u, hins, hule⟩
  · rintro ⟨s, hins, hsle⟩
    exact ⟨s, (dedupRun_queue_mem period tr hok s p).mpr
      ⟨hins, le_trans hTt hsle⟩, hsle⟩

lemma check_packet_empty (p : List Nat) (t period : Nat) :
    (DedupImpl_check_packet p t period
      { time_hash_queue := [], packet_hash_set := [] }).1 = true := by
  simp [DedupImpl_check_packet, dedupEvict]

lemma insertedAt_head (period s : Nat) (p : List Nat) (rest : List (Nat × List Nat)) :
    insertedAt period ((s, p) :: rest) p s := by
  refine ⟨⟨0, by simp⟩, rfl, ?_⟩
  exact check_packet_empty p s period

lemma TraceOk_take (period : Nat) (tr : List (Nat × List Nat))
    (hok : TraceOk period tr) (n : Nat) : TraceOk period (tr.take n) :=
  ⟨hok.1.sublist (List.take_sublist n tr),
    fun c hc => hok.2 c (List.mem_of_mem_take hc)⟩

/-- C5 (counterexample).  The claim's deduplication window is the half-open
interval `(t - period, t]`.  With `period = 100`, payload inserted at `t = 0`
and re-checked at `t = 100`: the insertion time `0` is *not* in
`(100 - 100, 100] = (0, 100]`, so the claim predicts `New`; but the source
evicts only entries with `timestamp > time + period`, so the entry from
`t = 0` is still present at `t = 100` and the check returns `Duplicate`.
The window implemented by the code is the closed interval `[t - period, t]`. -/
theorem dedup_half_open_window_counterexample :
    ((Dedup_check_packet [7] 100
        (Dedup_check_packet [7] 0
          { dedup_period_ms := 100,
            impl := { time_hash_queue := [], packet_hash_set := [] } }).2).1
      = PacketStatus.ALREADY_EXISTS_IN_BUFFER)
    ∧ ¬ ((100 : Nat) - 100 < 0) := by
  constructor
  · rfl
  · decide

/-- C5 (amended).  For every `period > 0` and every well-formed check trace
(clock values nondecreasing, bounded by the final check time `t`, and with
`time + period` never overflowing `uint32_t`): the check of payload `p` at
time `t` returns `Duplicate` if and only if an identical payload was inserted
(checked and found new) at some time `s` in the *closed* interval
`[t - period, t]`.  In particular (see the witness) checks of an identical
payload at `t = 0, 50` with `period = 100` return `New, Duplicate`. -/
theorem dedup_window_closed_iff (period : Nat) (hp : 0 < period)
    (tr : List (Nat × List Nat)) (t : Nat) (p : List Nat)
    (hok : TraceOk period tr) (hle : ∀ c ∈ tr, c.1 ≤ t)
    (ht : t + period < U32MOD) :
    (Dedup_check_packet p t
        { dedup_period_ms := period, impl := dedupRun period tr }).1
      = PacketStatus.ALREADY_EXISTS_IN_BUFFER
    ↔ ∃ s, insertedAt period tr p s ∧ t - period ≤ s ∧ s ≤ t := by
  rw [dedup_window_core period hp tr t p hok hle ht]
  constructor
  · rintro ⟨s, hins, hsle⟩
    obtain ⟨i, hget, _⟩ := hins
    have hmem : tr.get i ∈ tr := tr.get_mem i.val i.isLt
    have hst : s ≤ t := by
      have := hle (tr.get i) hmem
      rw [hget] at this
      exact this
    exact ⟨s, ⟨i, hget, by assumption⟩, by omega, hst⟩
  · rintro ⟨s, hins, h1, _⟩
    exact ⟨s, hins, by omega⟩

/-- Witness for `dedup_window_closed_iff`: `period = 100`, a single insertion
of payload `[7]` at time 0, re-check at time 50 → `Duplicate` (the spec's
`t = 0` / `t = 50` example). -/
theorem dedup_window_closed_iff_witness :
    (0 : Nat) < 100
    ∧ TraceOk 100 [(0, [7])]
    ∧ (∀ c ∈ [((0 : Nat), [(7 : Nat)])], c.1 ≤ 50)
    ∧ 50 + 100 < U32MOD
    ∧ (Dedup_check_packet [7] 50
        { dedup_period_ms := 100, impl := dedupRun 100 [(0, [7])] }).1
      = PacketStatus.ALREADY_EXISTS_IN_BUFFER := by
  have hok : TraceOk 100 [(0, [7])] := by
    constructor
    · exact List.pairwise_singleton _ _
    · intro c hc
      rcases List.mem_singleton.mp hc with rfl
      decide
  refine ⟨by decide, hok, by decide, by decide, ?_⟩
  refine (dedup_window_closed_iff 100 (by decide) [(0, [7])] 50 [7] hok
    (by decide) (by decide)).mpr ?_
  exact ⟨0, insertedAt_head 100 0 [7] [], by decide, by decide⟩

/-- C10.  A `Duplicate` result does not refresh the deduplication window:
after inserting payload `p` at time `s`, any number of further checks of `p`
at times within `[s, s + period]` all return `Duplicate` (they do not
re-insert), and a check of `p` at any time `t > s + period` returns `New` —
the retention time is measured from the original insertion only. -/
theorem dedup_duplicate_does_not_refresh (period s t : Nat) (p : List Nat)
    (times : List Nat) (hp : 0 < period)
    (hmono : (s :: times).Pairwise (· ≤ ·))
    (hwin : ∀ u ∈ times, u ≤ s + period)
    (ht : s + period < t)
    (hb : t + period < U32MOD) :
    ((Dedup_check_packet p t
        { dedup_period_ms := period,
          impl := dedupRun period ((s, p) :: times.map (fun u => (u, p))) }).1
      = PacketStatus.NEW_PACKET_OR_TIMED_OUT)
    ∧ ∀ i : Fin times.length,
        (DedupImpl_check_packet p (times.get i) period
          (dedupRun period
            (((s, p) :: times.map (fun u => (u, p))).take (i.val + 1)))).1 = false := by
  have htr :
      (s, p) :: times.map (fun u => (u, p)) = (s :: times).map (fun u => (u, p)) := by
    simp
  have hoktr : TraceOk period ((s, p) :: times.map (fun u => (u, p))) := by
    constructor
    · rw [htr]
      exact hmono.map _ (fun a b h => h)
    · intro c hc
      rw [htr] at hc
      obtain ⟨u, hu, rfl⟩ := List.mem_map.mp hc
      rcases List.mem_cons.mp hu with rfl | hu
      · omega
      · have := hwin u hu
        omega
  have part2 : ∀ i : Fin times.length,
      (DedupImpl_check_packet p (times.get i) period
        (dedupRun period
          (((s, p) :: times.map (fun u => (u, p))).take (i.val + 1)))).1 = false := by
    intro i
    have hu_mem : times.get i ∈ times := times.get_mem i.val i.isLt
    have hu_win : times.get i ≤ s + period := hwin _ hu_mem
    have hpre :
        ((s, p) :: times.map (fun u => (u, p))).take (i.val + 1)
          = (s, p) :: (times.take i.val).map (fun v => (v, p)) := by
      rw [List.take_cons (Nat.succ_pos i.val), List.map_take]
      simp
    have hokpre := TraceOk_take period _ hoktr (i.val + 1)
    have hinvpre := dedupRun_inv period _ hokpre
    have hfst := check_packet_fst_iff period
      (lastTime (((s, p) :: times.map (fun u => (u, p))).take (i.val + 1)))
      (times.get i) p _ hinvpre (by omega)
    have hins : insertedAt period
        (((s, p) :: times.map (fun u => (u, p))).take (i.val + 1)) p s := by
      rw [hpre]
      exact insertedAt_head period s p _
    have hlastle :
        lastTime (((s, p) :: times.map (fun u => (u, p))).take (i.val + 1))
          ≤ s + period := by
      refine lastTime_le_of_bound _ _ ?_
      intro c hc
      rw [hpre] at hc
      rcases List.mem_cons.mp hc with rfl | hc
      · omega
      · obtain ⟨v, hv, rfl⟩ := List.mem_map.mp hc
        exact hwin v (List.mem_of_mem_take hv)
    have hqm : (s, p) ∈ (dedupRun period
        (((s, p) :: times.map (fun u => (u, p))).take (i.val + 1))).time_hash_queue :=
      (dedupRun_queue_mem period _ hokpre s p).mpr ⟨hins, hlastle⟩
    cases hcc : (DedupImpl_check_packet p (times.get i) period
        (dedupRun period
          (((s, p) :: times.map (fun u => (u, p))).take (i.val + 1)))).1 with
    | false => rfl
    | true => exact absurd ⟨s, hqm, hu_win⟩ (hfst.mp hcc)
  refine ⟨?_, part2⟩
  have hle_t : ∀ c ∈ (s, p) :: times.map (fun u => (u, p)), c.1 ≤ t := by
    intro c hc
    rw [htr] at hc
    obtain ⟨u, hu, rfl⟩ := List.mem_map.mp hc
    rcases List.mem_cons.mp hu with rfl | hu
    · omega
    · have := hwin u hu
      omega
  have hnot : ¬ ((Dedup_check_packet p t
      { dedup_period_ms := period,
        impl := dedupRun period ((s, p) :: times.map (fun u => (u, p))) }).1
        = PacketStatus.ALREADY_EXISTS_IN_BUFFER) := by
    rw [dedup_window_core period hp _ t p hoktr hle_t hb]
    rintro ⟨w, ⟨i, hget, hchk⟩, hwle⟩
    rcases i with ⟨iv, hiv⟩
    cases iv with
    | zero =>
        have hw : w = s := by
          have : ((s, p) :: times.map (fun u => (u, p))).get ⟨0, hiv⟩ = (s, p) := rfl
          rw [this] at hget
          exact (congrArg Prod.fst hget).symm
        subst hw
        omega
    | succ j =>
        have hj : j < times.length := by
          simp only [List.length_cons, List.length_map] at hiv
          omega
        have hgetj : ((s, p) :: times.map (fun u => (u, p))).get ⟨j + 1, hiv⟩
            = (times.get ⟨j, hj⟩, p) := by
          simp [List.get_cons_succ]
        rw [hgetj] at hget
        have hw : w = times.get ⟨j, hj⟩ := (congrArg Prod.fst hget).symm
        subst hw
        have := part2 ⟨j, hj⟩
        rw [hchk] at this
        simp at this
  cases hval : (Dedup_check_packet p t
      { dedup_period_ms := period,
        impl := dedupRun period ((s, p) :: times.map (fun u => (u, p))) }).1 with
  | NEW_PACKET_OR_TIMED_OUT => rfl
  | ALREADY_EXISTS_IN_BUFFER => exact absurd hval hnot

/-- Witness for `dedup_duplicate_does_not_refresh`: `period = 100`, insertion
at 0, duplicate check at 50, final check at 200 → `New` (the spec's
`t = 0 / 50 / 200` example). -/
theorem dedup_duplicate_does_not_refresh_witness :
    (0 : Nat) < 100
    ∧ List.Pairwise (· ≤ ·) [0, 50]
    ∧ (∀ u ∈ [(50 : Nat)], u ≤ 0 + 100)
    ∧ 0 + 100 < 200
    ∧ 200 + 100 < U32MOD
    ∧ ((Dedup_check_packet [7] 200
        { dedup_period_ms := 100,
          impl := dedupRun 100 ((0, [7]) :: [(50 : Nat)].map (fun u => (u, [7]))) }).1
      = PacketStatus.NEW_PACKET_OR_TIMED_OUT) := by
  have h := dedup_duplicate_does_not_refresh 100 0 200 [7] [50] (by decide)
    (by decide) (by decide) (by decide) (by decide)
  exact ⟨by decide, by decide, by decide, by decide, by decide, h.1⟩

/-! ## Router instances, `request_exit` and `loop` (src/mainloop.cpp)

A `Mainloop` object owns its own epoll fd, endpoint list, dedup cache,
`_should_exit` flag and `_retcode`.  `request_exit` writes only through
`this`, so it is embedded as a pure function on one instance's state; a
"world" of router instances (the primary singleton plus extension instances)
is a list of such states, and `requestExitAt` updates one index. -/

/-- Per-instance state of a `Mainloop` (fields of class `Mainloop`,
src/mainloop.h): `epollfd`, `g_tcp_fd`, `should_process_tcp_hangups`,
`g_endpoints`, `_msg_dedup`, `_errors_aggregate.msg_to_unknown`,
`_should_exit` and `_retcode`. -/
structure MainloopState where
  epollfd : Int
  g_tcp_fd : Int
  should_process_tcp_hangups : Bool
  g_endpoints : List Endpoint
  msg_dedup : DedupState
  errors_msg_to_unknown : Nat
  should_exit : Bool
  retcode : Int

/-- A default `MainloopState` (used only as the default of `List.getD`). -/
def mlDefault : MainloopState :=
  { epollfd := -1, g_tcp_fd := -1, should_process_tcp_hangups := false,
    g_endpoints := [],
    msg_dedup := { dedup_period_ms := 0,
                   impl := { time_hash_queue := [], packet_hash_set := [] } },
    errors_msg_to_unknown := 0, should_exit := false, retcode := -1 }

/-- `Mainloop::request_exit` (src/mainloop.cpp:262-276): store the retcode
and set this instance's `_should_exit`; nothing else is written. -/
def request_exit (st : MainloopState) (retcode : Int) : MainloopState :=
  { st with retcode := retcode, should_exit := true }

/-- Apply `request_exit` to the instance at index `i` of a world of router
instances, leaving every other instance untouched. -/
def requestExitAt : List MainloopState → Nat → Int → List MainloopState
  | [], _, _ => []
  | st :: rest, 0, r => request_exit st r :: rest
  | st :: rest, i + 1, r => st :: requestExitAt rest i r

/-- Events a `loop` iteration can observe.  `epollTimeout` is an
`epoll_wait` timeout (the 100 ms bounded wait); `criticalError` is an
`EPOLLERR` on a critical fd, upon which the loop calls
`request_exit(EXIT_FAILURE)` on itself. -/
inductive LoopEvent
  | epollTimeout
  | criticalError
deriving DecidableEq, Repr

/-- Effect of one ready-wait iteration body on the instance state. -/
def loop_iter (st : MainloopState) (ev : LoopEvent) : MainloopState :=
  match ev with
  | LoopEvent.epollTimeout => st
  | LoopEvent.criticalError => request_exit st 1

/-- The `while (!_should_exit)` cycle of `Mainloop::loop`
(src/mainloop.cpp:451-555): the flag is checked before each wait; when it is
set the loop breaks and `loop` returns `_retcode`.  The event list is the
(finite prefix of the) sequence of wakeups; `none` means the loop is still
running after consuming them. -/
def loopGo : MainloopState → List LoopEvent → Option Int
  | st, [] => if st.should_exit then some st.retcode else none
  | st, ev :: rest =>
      if st.should_exit then some st.retcode else loopGo (loop_iter st ev) rest

/-- `Mainloop::loop` (src/mainloop.cpp:451-555): `-EINVAL` (= -22) if the
epoll fd was never opened, otherwise the ready-wait cycle. -/
def loop (st : MainloopState) (events : List LoopEvent) : Option Int :=
  if st.epollfd < 0 then some (-22) else loopGo st events

lemma loopGo_exit (st : MainloopState) (h : st.should_exit = true)
    (evs : List LoopEvent) : loopGo st evs = some st.retcode := by
  cases evs <;> simp [loopGo, h]

lemma requestExitAt_length (w : List MainloopState) (i : Nat) (r : Int) :
    (requestExitAt w i r).length = w.length := by
  induction w generalizing i with
  | nil => rfl
  | cons st rest ih =>
      cases i with
      | zero => rfl
      | succ j => simp [requestExitAt, ih]

lemma requestExitAt_getD_ne (w : List MainloopState) (i j : Nat) (r : Int)
    (hne : j ≠ i) :
    (requestExitAt w i r).getD j mlDefault = w.getD j mlDefault := by
  induction w generalizing i j with
  | nil => rfl
  | cons st rest ih =>
      cases i with
      | zero =>
          cases j with
          | zero => exact absurd rfl hne
          | succ k => rfl
      | succ m =>
          cases j with
          | zero => rfl
          | succ k =>
              simp only [requestExitAt, List.getD_cons_succ]
              exact ih m k (fun h => hne (congrArg Nat.succ h))

lemma requestExitAt_getD_eq (w : List MainloopState) (i : Nat) (r : Int)
    (hi : i < w.length) :
    (requestExitAt w i r).getD i mlDefault = request_exit (w.getD i mlDefault) r := by
  induction w generalizing i with
  | nil => simp at hi
  | cons st rest ih =>
      cases i with
      | zero => rfl
      | succ j =>
          simp only [requestExitAt, List.getD_cons_succ]
          exact ih j (by simpa using hi)

/-- C2.  `request_exit(r)` on the router instance at index `i` modifies only
that instance's `_should_exit` flag and stored `_retcode`: every other
instance of the world is left completely unchanged, every other field of
instance `i` is unchanged, and a subsequent `loop()` on instance `i` (whose
epoll fd is open) returns the stored retcode no matter what events arrive. -/
theorem request_exit_touches_only_its_instance (w : List MainloopState)
    (i : Nat) (r : Int) (hi : i < w.length)
    (hopen : 0 ≤ (w.getD i mlDefault).epollfd) :
    ((requestExitAt w i r).length = w.length)
    ∧ (∀ j, j ≠ i → (requestExitAt w i r).getD j mlDefault = w.getD j mlDefault)
    ∧ ((requestExitAt w i r).getD i mlDefault).should_exit = true
    ∧ ((requestExitAt w i r).getD i mlDefault).retcode = r
    ∧ ((requestExitAt w i r).getD i mlDefault).epollfd = (w.getD i mlDefault).epollfd
    ∧ ((requestExitAt w i r).getD i mlDefault).g_tcp_fd = (w.getD i mlDefault).g_tcp_fd
    ∧ ((requestExitAt w i r).getD i mlDefault).should_process_tcp_hangups
        = (w.getD i mlDefault).should_process_tcp_hangups
    ∧ ((requestExitAt w i r).getD i mlDefault).g_endpoints
        = (w.getD i mlDefault).g_endpoints
    ∧ ((requestExitAt w i r).getD i mlDefault).msg_dedup
        = (w.getD i mlDefault).msg_dedup
    ∧ ((requestExitAt w i r).getD i mlDefault).errors_msg_to_unknown
        = (w.getD i mlDefault).errors_msg_to_unknown
    ∧ (∀ events, loop ((requestExitAt w i r).getD i mlDefault) events = some r) := by
  have heq := requestExitAt_getD_eq w i r hi
  refine ⟨requestExitAt_length w i r,
    fun j hj => requestExitAt_getD_ne w i j r hj,
    by rw [heq]; rfl, by rw [heq]; rfl, by rw [heq]; rfl, by rw [heq]; rfl,
    by rw [heq]; rfl, by rw [heq]; rfl, by rw [heq]; rfl, by rw [heq]; rfl,
    ?_⟩
  intro events
  rw [heq]
  unfold loop
  have hnneg : ¬ ((request_exit (w.getD i mlDefault) r).epollfd < 0) := by
    have : (request_exit (w.getD i mlDefault) r).epollfd
        = (w.getD i mlDefault).epollfd := rfl
    rw [this]
    omega
  rw [if_neg hnneg, loopGo_exit _ rfl]
  rfl

/-- Witness for `request_exit_touches_only_its_instance`: a world of two
instances (the primary singleton at index 0, an extension at index 1);
`request_exit(0)` on the extension leaves the primary untouched and the
extension's `loop` returns 0. -/
theorem request_exit_touches_only_its_instance_witness :
    (1 < ([mlDefault, { mlDefault with epollfd := 4 }] : List MainloopState).length)
    ∧ (0 ≤ (([mlDefault, { mlDefault with epollfd := 4 }]
        : List MainloopState).getD 1 mlDefault).epollfd)
    ∧ ((requestExitAt [mlDefault, { mlDefault with epollfd := 4 }] 1 0).getD 0 mlDefault
        = mlDefault)
    ∧ (loop ((requestExitAt [mlDefault, { mlDefault with epollfd := 4 }] 1 0).getD 1
        mlDefault) [LoopEvent.epollTimeout] = some 0) := by
  have h := request_exit_touches_only_its_instance
    [mlDefault, { mlDefault with epollfd := 4 }] 1 0 (by decide) (by norm_num)
  exact ⟨by decide, by norm_num, h.2.1 0 (by decide), h.2.2.2.2.2.2.2.2.2.2 _⟩

/-! ## Group linking in `Mainloop::add_endpoints` (src/mainloop.cpp:698-709)

The source links grouped endpoints with

```
for (auto e : g_endpoints) {
    if (e->get_group_name().empty()) continue;
    for (auto other : g_endpoints) \x7b // find other endpoints in group
        if (other != e && e->get_group_name() == e->get_group_name())
            e->link_group_member(other);
    \x7d
}
```

The inner condition compares `e`'s group name *with itself* (instead of with
`other->get_group_name()`), so it is always true.  The model reproduces the
source verbatim, with an endpoint rendered as `(id, group-name)` and the
shared-pointer inequality `other != e` rendered as inequality of the two
entries. -/

/-- The group-linking pass of `Mainloop::add_endpoints`: returns the list of
`(e.id, other.id)` pairs for which `e->link_group_member(other)` is called,
in iteration order. -/
def link_group_members (eps : List (Nat × String)) : List (Nat × Nat) :=
  (eps.map (fun e =>
    if e.2 = "" then []
    else (eps.filter (fun o => o != e && e.2 == e.2)).map (fun o => (e.1, o.1)))).join

/-- C9 (code bug).  Two endpoints with *different* non-empty group tags
(`"g1"` vs `"g2"`) are nevertheless linked to each other by
`add_endpoints`, because the source's inner loop condition
`e->get_group_name() == e->get_group_name()` compares `e` with itself and is
always true.  The claim (linked iff same non-empty tag) is the evident
intent — the loop comment says "find other endpoints in group" — but the
code links every endpoint with a non-empty tag to every other endpoint. -/
theorem group_link_cross_group_bug :
    link_group_members [(1, "g1"), (2, "g2")] = [(1, 2), (2, 1)]
    ∧ ("g1" : String) ≠ "g2" := by
  constructor
  · rfl
  · decide

/-! ## RPC controller (src/rpc-mechanisms/RpcController.cpp)

The controller holds `threadRegistry_ : name → threadId`,
`threadAttachments_ : name → attachmentId` and
`restartCallbacks_ : name → (() → threadId)`.  The thread manager is an
environment: `alive` answers `isThreadAlive`, `joinOk` answers whether a
bounded `joinThread` met its deadline.  A restart callback is a function of
the registry returning the new thread id and the registry it leaves behind
(in the source the callback registers the thread it creates).  Side effects
on the thread manager and the `Mainloop` singleton are returned as an
explicit action list.  `std::map` keys are unique and iterate in sorted key
order; the association lists here are used with unique keys, and the
concrete states below list them in sorted order. -/

/-- Operations of `RpcController` (enum `ThreadOperation`). -/
inductive ThreadOperation
  | START
  | STOP
  | PAUSE
  | RESUME
  | RESTART
  | STATUS
deriving DecidableEq, Repr

/-- Targets of `RpcController` (enum `ThreadTarget`). -/
inductive ThreadTarget
  | MAINLOOP
  | HTTP_SERVER
  | STATISTICS
  | ALL
deriving DecidableEq, Repr

/-- Response statuses (enum `OperationStatus`). -/
inductive OperationStatus
  | SUCCESS
  | FAILED
  | THREAD_NOT_FOUND
  | INVALID_OPERATION
  | ALREADY_IN_STATE
  | TIMEOUT
deriving DecidableEq, Repr

/-- First value in an association list under a string key (`std::map::find`). -/
def lookupKey {α : Type} (l : List (String × α)) (k : String) : Option α :=
  (l.find? (fun p => p.1 == k)).map Prod.snd

/-- The two registries guarded by `registryMutex_`. -/
structure RpcRegistry where
  threadRegistry : List (String × Nat)
  threadAttachments : List (String × String)

/-- Full controller state: registries plus restart callbacks. -/
structure RpcControllerState where
  reg : RpcRegistry
  restartCallbacks : List (String × (RpcRegistry → Nat × RpcRegistry))

/-- Observable side effects of controller operations: thread-manager calls
(`stopThread`, `pauseThread`, `resumeThread`, `joinThread` with its bound in
ms, `unregisterThread`), the `Mainloop::instance().request_exit` call on the
singleton, and restart-callback invocations. -/
inductive RpcAction
  | tmStop (id : Nat)
  | tmPause (id : Nat)
  | tmResume (id : Nat)
  | tmJoin (id : Nat) (ms : Nat)
  | tmUnregister (att : String)
  | singletonRequestExit (retcode : Int)
  | invokeCallback (name : String)
deriving DecidableEq, Repr

/-- `RpcController::executeOperationOnThread`
(src/rpc-mechanisms/RpcController.cpp:144-404).  Mirrors the source's
control flow: an unregistered thread yields `THREAD_NOT_FOUND` except for
`START` with a registered restart callback; `STOP` of `"mainloop"` calls
`request_exit(0)` on the `Mainloop` singleton; `STOP` of a thread literally
named `"ALL"` walks the registry skipping `http_server`; `STOP` of any other
registered thread is a cooperative `stopThread`. -/
def executeOperationOnThread (alive joinOk : Nat → Bool)
    (st : RpcControllerState) (threadName : String) (op : ThreadOperation) :
    OperationStatus × List RpcAction × RpcControllerState :=
  match lookupKey st.reg.threadRegistry threadName with
  | none =>
      if op = ThreadOperation.START then
        match lookupKey st.restartCallbacks threadName with
        | some cb =>
            let r := cb st.reg
            (OperationStatus.SUCCESS, [RpcAction.invokeCallback threadName],
              { st with reg := r.2 })
        | none => (OperationStatus.THREAD_NOT_FOUND, [], st)
      else (OperationStatus.THREAD_NOT_FOUND, [], st)
  | some threadId =>
      let attachmentId := (lookupKey st.reg.threadAttachments threadName).getD ""
      match op with
      | ThreadOperation.START =>
          if alive threadId then (OperationStatus.ALREADY_IN_STATE, [], st)
          else
            match lookupKey st.restartCallbacks threadName with
            | some cb =>
                let cleanupActs :=
                  [RpcAction.tmStop threadId, RpcAction.tmJoin threadId 500]
                    ++ (if attachmentId = "" then []
                        else [RpcAction.tmUnregister attachmentId])
                let reg1 : RpcRegistry :=
                  { threadRegistry :=
                      st.reg.threadRegistry.filter (fun p => p.1 != threadName),
                    threadAttachments :=
                      st.reg.threadAttachments.filter (fun p => p.1 != threadName) }
                let r := cb reg1
                (OperationStatus.SUCCESS,
                  cleanupActs ++ [RpcAction.invokeCallback threadName],
                  { st with reg := r.2 })
            | none => (OperationStatus.FAILED, [], st)
      | ThreadOperation.STOP =>
          if threadName = "mainloop" then
            (OperationStatus.SUCCESS, [RpcAction.singletonRequestExit 0], st)
          else if threadName = "ALL" then
            (OperationStatus.SUCCESS,
              st.reg.threadRegistry.filterMap (fun p =>
                if p.1 = "mainloop" then some (RpcAction.singletonRequestExit 0)
                else if p.1 ≠ "http_server" then some (RpcAction.tmStop p.2)
                else none),
              st)
          else (OperationStatus.SUCCESS, [RpcAction.tmStop threadId], st)
      | ThreadOperation.PAUSE =>
          (OperationStatus.SUCCESS, [RpcAction.tmPause threadId], st)
      | ThreadOperation.RESUME =>
          (OperationStatus.SUCCESS, [RpcAction.tmResume threadId], st)
      | ThreadOperation.RESTART =>
          if joinOk threadId then
            (OperationStatus.SUCCESS,
              [RpcAction.tmStop threadId, RpcAction.tmJoin threadId 5000], st)
          else
            (OperationStatus.TIMEOUT,
              [RpcAction.tmStop threadId, RpcAction.tmJoin threadId 5000], st)
      | ThreadOperation.STATUS => (OperationStatus.SUCCESS, [], st)

/-- `RpcController::getThreadNamesForTarget`
(src/rpc-mechanisms/RpcController.cpp:405-449): resolve a symbolic target to
thread names; a named target is also resolved when only its restart callback
exists; `ALL` lists every registered thread plus callback-only threads. -/
def getThreadNamesForTarget (st : RpcControllerState) (target : ThreadTarget) :
    List String :=
  match target with
  | ThreadTarget.MAINLOOP =>
      match lookupKey st.reg.threadRegistry "mainloop" with
      | some _ => ["mainloop"]
      | none =>
          match lookupKey st.restartCallbacks "mainloop" with
          | some _ => ["mainloop"]
          | none => []
  | ThreadTarget.HTTP_SERVER =>
      match lookupKey st.reg.threadRegistry "http_server" with
      | some _ => ["http_server"]
      | none =>
          match lookupKey st.restartCallbacks "http_server" with
          | some _ => ["http_server"]
          | none => []
  | ThreadTarget.STATISTICS =>
      match lookupKey st.reg.threadRegistry "statistics" with
      | some _ => ["statistics"]
      | none =>
          match lookupKey st.restartCallbacks "statistics" with
          | some _ => ["statistics"]
          | none => []
  | ThreadTarget.ALL =>
      st.reg.threadRegistry.map Prod.fst
        ++ (st.restartCallbacks.map Prod.fst).filter
            (fun n => (lookupKey st.reg.threadRegistry n).isNone)

/-- The per-name loop of `RpcController::executeRequest`: runs the operation
on each resolved name, accumulating success, actions and state. -/
def execLoop (alive joinOk : Nat → Bool) (op : ThreadOperation) :
    List String → RpcControllerState → Bool × List RpcAction × RpcControllerState
  | [], st => (true, [], st)
  | n :: rest, st =>
      let r := executeOperationOnThread alive joinOk st n op
      let tail := execLoop alive joinOk op rest r.2.2
      ((r.1 == OperationStatus.SUCCESS) && tail.1, r.2.1 ++ tail.2.1, tail.2.2)

/-- `RpcController::executeRequest`
(src/rpc-mechanisms/RpcController.cpp:451-483): resolve the target; an empty
resolution is `THREAD_NOT_FOUND`; otherwise the aggregate status is
`SUCCESS` when every per-thread status was `SUCCESS` and `FAILED`
otherwise. -/
def executeRequest (alive joinOk : Nat → Bool) (st : RpcControllerState)
    (op : ThreadOperation) (target : ThreadTarget) :
    OperationStatus × List RpcAction × RpcControllerState :=
  let names := getThreadNamesForTarget st target
  if names = [] then (OperationStatus.THREAD_NOT_FOUND, [], st)
  else
    let lr := execLoop alive joinOk op names st
    (if lr.1 then OperationStatus.SUCCESS else OperationStatus.FAILED,
      lr.2.1, lr.2.2)

/-- Controller state for the stop-all scenario: `http_server` (id 1) and
`mainloop` (id 2) registered, no restart callbacks. -/
def c3State : RpcControllerState :=
  { reg := { threadRegistry := [("http_server", 1), ("mainloop", 2)],
             threadAttachments :=
               [("http_server", "http_server"), ("mainloop", "mainloop")] },
    restartCallbacks := [] }

/-- C3 (code bug).  A Stop request with target `all` goes through
`executeRequest`, which resolves `ALL` to every registered thread name and
invokes `executeOperationOnThread` per name.  For the name `"http_server"`
that call takes the generic stop branch and issues a cooperative
`stopThread` on the HTTP server's thread — the source's
"don't stop http_server" logic lives in the `threadName == "ALL"` branch,
which this dispatch path never reaches.  So, contrary to the claim (and to
the source's own comment), stop-of-all does stop the `http_server` thread. -/
theorem stop_all_stops_http_server :
    ((executeRequest (fun _ => true) (fun _ => true) c3State
        ThreadOperation.STOP ThreadTarget.ALL).2.1
      = [RpcAction.tmStop 1, RpcAction.singletonRequestExit 0])
    ∧ lookupKey c3State.reg.threadRegistry "http_server" = some 1
    ∧ RpcAction.tmStop 1 ∈ (executeRequest (fun _ => true) (fun _ => true) c3State
        ThreadOperation.STOP ThreadTarget.ALL).2.1 := by
  refine ⟨rfl, rfl, ?_⟩
  rw [show (executeRequest (fun _ => true) (fun _ => true) c3State
      ThreadOperation.STOP ThreadTarget.ALL).2.1
    = [RpcAction.tmStop 1, RpcAction.singletonRequestExit 0] from rfl]
  exact List.mem_cons_self _ _

/-- The restart callback registered for `mainloop` in the scenario of claim
C8: it creates the new thread (id 5) and registers it, as the callback in
`main.cpp` does. -/
def c8Callback : RpcRegistry → Nat × RpcRegistry :=
  fun reg =>
    (5, { threadRegistry := reg.threadRegistry ++ [("mainloop", 5)],
          threadAttachments := reg.threadAttachments ++ [("mainloop", "mainloop")] })

/-- Controller state for the restart-callback scenario: a restart callback
for `mainloop` is registered but `start` was never invoked, so `mainloop` is
not in the thread registry (only `http_server` is). -/
def c8State : RpcControllerState :=
  { reg := { threadRegistry := [("http_server", 1)],
             threadAttachments := [("http_server", "http_server")] },
    restartCallbacks := [("mainloop", c8Callback)] }

/-- C8 (counterexample).  With a restart callback registered for `mainloop`
and the thread never started, a stop request targeting `mainloop` does *not*
return `THREAD_NOT_FOUND` at the request level: `getThreadNamesForTarget`
resolves `mainloop` (because the callback exists), the per-thread operation
returns `THREAD_NOT_FOUND`, and `executeRequest` aggregates any non-success
into `FAILED`.  The claimed `ThreadNotFound` response status is wrong. -/
theorem rpc_stop_unstarted_mainloop_counterexample :
    ((executeRequest (fun _ => true) (fun _ => true) c8State
        ThreadOperation.STOP ThreadTarget.MAINLOOP).1 = OperationStatus.FAILED)
    ∧ OperationStatus.FAILED ≠ OperationStatus.THREAD_NOT_FOUND := by
  exact ⟨rfl, by decide⟩

/-- C8 (amended).  With a restart callback registered for `mainloop` and the
thread not registered: a stop request targeting `mainloop` returns `FAILED`
at the request level, the per-thread result being `THREAD_NOT_FOUND`; a
subsequent start request targeting `mainloop` invokes the restart callback
(and nothing else), returns `SUCCESS`, and leaves the registry the callback
produced — in particular, if the callback registers the new thread id, that
id is found under `mainloop` afterwards. -/
theorem rpc_stop_then_start_unstarted_mainloop (alive joinOk : Nat → Bool)
    (st : RpcControllerState) (cb : RpcRegistry → Nat × RpcRegistry)
    (hnreg : lookupKey st.reg.threadRegistry "mainloop" = none)
    (hcb : lookupKey st.restartCallbacks "mainloop" = some cb) :
    ((executeRequest alive joinOk st ThreadOperation.STOP ThreadTarget.MAINLOOP).1
      = OperationStatus.FAILED)
    ∧ ((executeOperationOnThread alive joinOk st "mainloop" ThreadOperation.STOP).1
      = OperationStatus.THREAD_NOT_FOUND)
    ∧ ((executeRequest alive joinOk st ThreadOperation.START ThreadTarget.MAINLOOP).1
      = OperationStatus.SUCCESS)
    ∧ ((executeRequest alive joinOk st ThreadOperation.START ThreadTarget.MAINLOOP).2.1
      = [RpcAction.invokeCallback "mainloop"])
    ∧ (((executeRequest alive joinOk st ThreadOperation.START
          ThreadTarget.MAINLOOP).2.2).reg = (cb st.reg).2)
    ∧ (lookupKey (cb st.reg).2.threadRegistry "mainloop" = some (cb st.reg).1 →
        lookupKey ((executeRequest alive joinOk st ThreadOperation.START
            ThreadTarget.MAINLOOP).2.2).reg.threadRegistry "mainloop"
          = some (cb st.reg).1) := by
  have hnames : getThreadNamesForTarget st ThreadTarget.MAINLOOP = ["mainloop"] := by
    unfold getThreadNamesForTarget
    rw [hnreg, hcb]
  have hop_stop : executeOperationOnThread alive joinOk st "mainloop"
      ThreadOperation.STOP = (OperationStatus.THREAD_NOT_FOUND, [], st) := by
    unfold executeOperationOnThread
    rw [hnreg]
    simp
  have hop_start : executeOperationOnThread alive joinOk st "mainloop"
      ThreadOperation.START
      = (OperationStatus.SUCCESS, [RpcAction.invokeCallback "mainloop"],
          { st with reg := (cb st.reg).2 }) := by
    unfold executeOperationOnThread
    rw [hnreg]
    simp [hcb]
  have hreq_stop : executeRequest alive joinOk st ThreadOperation.STOP
      ThreadTarget.MAINLOOP
      = (OperationStatus.FAILED, [], st) := by
    unfold executeRequest
    rw [hnames]
    simp [execLoop, hop_stop]
  have hreq_start : executeRequest alive joinOk st ThreadOperation.START
      ThreadTarget.MAINLOOP
      = (OperationStatus.SUCCESS, [RpcAction.invokeCallback "mainloop"],
          { st with reg := (cb st.reg).2 }) := by
    unfold executeRequest
    rw [hnames]
    simp [execLoop, hop_start]
  refine ⟨by rw [hreq_stop], by rw [hop_stop], by rw [hreq_start],
    by rw [hreq_start], by rw [hreq_start], ?_⟩
  intro hlook
  rw [hreq_start]
  exact hlook

/-- Witness for `rpc_stop_then_start_unstarted_mainloop`: the concrete state
`c8State` with callback `c8Callback`; the start request succeeds and the new
thread id 5 is registered under `mainloop`. -/
theorem rpc_stop_then_start_unstarted_mainloop_witness :
    (lookupKey c8State.reg.threadRegistry "mainloop" = none)
    ∧ (lookupKey c8State.restartCallbacks "mainloop" = some c8Callback)
    ∧ ((executeRequest (fun _ => true) (fun _ => true) c8State
        ThreadOperation.START ThreadTarget.MAINLOOP).1 = OperationStatus.SUCCESS)
    ∧ (lookupKey ((executeRequest (fun _ => true) (fun _ => true) c8State
        ThreadOperation.START ThreadTarget.MAINLOOP).2.2).reg.threadRegistry
        "mainloop" = some 5) := by
  have h := rpc_stop_then_start_unstarted_mainloop (fun _ => true) (fun _ => true)
    c8State c8Callback rfl rfl
  exact ⟨rfl, rfl, h.2.2.1, rfl⟩

/-! ## Extension manager (src/mavlink-extensions/ExtensionManager.cpp)

`createExtension` auto-assigns an extension point by scanning the primary
router's configuration for endpoint names containing the pool marker of the
extension's type (`std::string::find != npos`, i.e. substring search) and
skipping names already recorded under any existing extension.
`stopExtension` polls (20 × 50 ms) for the extension thread to publish its
mainloop-instance pointer, then signals that instance.  Thread ids, the
random TCP port, and published instance pointers are environment inputs. -/

/-- Prefix test on character lists (helper for substring search). -/
def listStartsWith : List Char → List Char → Bool
  | [], _ => true
  | _ :: _, [] => false
  | p :: ps, t :: ts => p == t && listStartsWith ps ts

/-- Substring test on character lists (helper for substring search). -/
def listHasInfix (pat : List Char) : List Char → Bool
  | [] => listStartsWith pat []
  | t :: ts => listStartsWith pat (t :: ts) || listHasInfix pat ts

/-- `s.find(pat) != std::string::npos`: `pat` occurs somewhere in `s`. -/
def strContains (s pat : String) : Bool := listHasInfix pat.data s.data

/-- UDP endpoint mode (enum `UdpEndpointConfig::Mode`). -/
inductive UdpMode
  | Client
  | Server
deriving DecidableEq, Repr

/-- A UDP endpoint configuration (struct `UdpEndpointConfig`), the fields
the extension manager reads and writes. -/
structure UdpEndpointConfig where
  name : String
  address : String
  port : Nat
  mode : UdpMode
deriving DecidableEq, Repr

/-- A TCP endpoint configuration (struct `TcpEndpointConfig`). -/
structure TcpEndpointConfig where
  name : String
  address : String
  port : Nat
  retry_timeout : Nat
deriving DecidableEq, Repr

/-- The slice of `Configuration` the extension manager consumes/produces:
UDP and TCP endpoint configurations and the TCP server port. -/
structure Configuration where
  udp_configs : List UdpEndpointConfig
  tcp_configs : List TcpEndpointConfig
  tcp_port : Nat
deriving DecidableEq, Repr

/-- Extension types (enum `ExtensionType`). -/
inductive ExtensionType
  | INTERNAL
  | TCP
  | UDP
deriving DecidableEq, Repr

/-- An extension's configuration (struct `ExtensionConfig`). -/
structure ExtensionConfig where
  name : String
  extype : ExtensionType
  address : String
  port : Nat
  assigned_extension_point : String
  extension_thread_config : Configuration
deriving DecidableEq, Repr

/-- A live extension record (struct `ExtensionInfo`); the mainloop instance
pointer is an abstract instance id. -/
structure ExtensionInfo where
  name : String
  config : ExtensionConfig
  threadId : Nat
  isRunning : Bool
  mainloopInstance : Option Nat
deriving DecidableEq, Repr

/-- State of the `ExtensionManager`: the `extensions_` map and the global
configuration reference. -/
structure ExtensionManagerState where
  extensions : List (String × ExtensionInfo)
  globalConfig : Option Configuration

/-- The extension points already recorded under existing extensions (the
`usedPoints` set of `assignAvailableExtensionPoint`): every non-empty
`assigned_extension_point` of every record, running or stopped. -/
def usedPoints (exts : List (String × ExtensionInfo)) : List String :=
  exts.filterMap (fun p =>
    if p.2.config.assigned_extension_point = "" then none
    else some p.2.config.assigned_extension_point)

/-- The pool marker substring for each extension type. -/
def poolMarker : ExtensionType → String
  | ExtensionType.INTERNAL => "internal-router-point"
  | ExtensionType.TCP => "tcp-extension-point"
  | ExtensionType.UDP => "udp-extension-point"

/-- The endpoint-name pool scanned for each extension type: UDP endpoint
names for `INTERNAL` and `UDP`, TCP endpoint names for `TCP`, in
configuration order. -/
def extensionPool (g : Configuration) : ExtensionType → List String
  | ExtensionType.INTERNAL => g.udp_configs.map UdpEndpointConfig.name
  | ExtensionType.TCP => g.tcp_configs.map TcpEndpointConfig.name
  | ExtensionType.UDP => g.udp_configs.map UdpEndpointConfig.name

/-- The scanning loop of `assignAvailableExtensionPoint`
(src/mavlink-extensions/ExtensionManager.cpp:76-139): first name containing
the marker and not used; `""` when none. -/
def firstFreePoint : List String → String → List String → String
  | [], _, _ => ""
  | n :: rest, marker, used =>
      if strContains n marker && !(used.contains n) then n
      else firstFreePoint rest marker used

/-- `ExtensionManager::assignAvailableExtensionPoint`
(src/mavlink-extensions/ExtensionManager.cpp:76-139). -/
def assignAvailableExtensionPoint (exts : List (String × ExtensionInfo))
    (g : Configuration) (t : ExtensionType) : String :=
  firstFreePoint (extensionPool g t) (poolMarker t) (usedPoints exts)

/-- `ExtensionManager::validateExtensionConfig`
(src/mavlink-extensions/ExtensionManager.cpp:866-883): non-empty name and
address, non-zero port. -/
def validateExtensionConfig (config : ExtensionConfig) : Bool :=
  !(config.name == "") && !(config.address == "") && !(config.port == 0)

/-- The `extension_thread_config` construction inside
`ExtensionManager::createExtension`
(src/mavlink-extensions/ExtensionManager.cpp:286-388): a random TCP server
port (passed in as `randPort`), then per type the pool slot as a Server
endpoint and the user-supplied peer as a Client endpoint (5 s retry for
TCP). -/
def buildThreadConfig (g : Configuration) (mc : ExtensionConfig)
    (randPort : Nat) : Except String Configuration :=
  match mc.extype with
  | ExtensionType.INTERNAL =>
      if strContains mc.assigned_extension_point "internal-router-point" = false then
        Except.error "INTERNAL type must use internal-router-point"
      else
        match g.udp_configs.find? (fun u => u.name == mc.assigned_extension_point) with
        | none => Except.error "Internal router point not found in configuration"
        | some udp =>
            Except.ok
              { udp_configs :=
                  [{ udp with mode := UdpMode.Server },
                   { name := mc.name, address := mc.address, port := mc.port,
                     mode := UdpMode.Client }],
                tcp_configs := [], tcp_port := randPort }
  | ExtensionType.TCP =>
      let serverPart :=
        match g.tcp_configs.find? (fun c => c.name == mc.assigned_extension_point) with
        | some tcp => [tcp]
        | none => []
      Except.ok
        { udp_configs := [],
          tcp_configs := serverPart ++
            [{ name := mc.name, address := mc.address, port := mc.port,
               retry_timeout := 5000 }],
          tcp_port := randPort }
  | ExtensionType.UDP =>
      let serverPart :=
        match g.udp_configs.find? (fun u => u.name == mc.assigned_extension_point) with
        | some udp => [{ udp with mode := UdpMode.Server }]
        | none => []
      Except.ok
        { udp_configs := serverPart ++
            [{ name := mc.name, address := mc.address, port := mc.port,
               mode := UdpMode.Client }],
          tcp_configs := [], tcp_port := randPort }

/-- `ExtensionManager::createExtension`
(src/mavlink-extensions/ExtensionManager.cpp:247-411): reject duplicates;
require a global configuration; auto-assign an extension point, overwriting
whatever the client supplied; validate; build the secondary router's
configuration; insert the record (running, thread launched with the id the
thread manager returned).  Returns the source's message string. -/
def createExtension (st : ExtensionManagerState) (config : ExtensionConfig)
    (newThreadId randPort : Nat) : String × ExtensionManagerState :=
  match lookupKey st.extensions config.name with
  | some _ => ("Extension already exists", st)
  | none =>
      match st.globalConfig with
      | none => ("Global configuration not available", st)
      | some g =>
          let pt := assignAvailableExtensionPoint st.extensions g config.extype
          if pt = "" then ("No available extension points", st)
          else
            let modifiedConfig := { config with assigned_extension_point := pt }
            if validateExtensionConfig modifiedConfig = false then
              ("Invalid extension configuration", st)
            else
              match buildThreadConfig g modifiedConfig randPort with
              | Except.error msg => (msg, st)
              | Except.ok tc =>
                  let finalConfig :=
                    { modifiedConfig with extension_thread_config := tc }
                  let info : ExtensionInfo :=
                    { name := finalConfig.name, config := finalConfig,
                      threadId := newThreadId, isRunning := true,
                      mainloopInstance := none }
                  ("Success",
                    { st with extensions :=
                        st.extensions ++ [(config.name, info)] })

/-- Observable side effects of `stopExtension`: a `request_exit` on a
specific mainloop instance, and thread-manager calls. -/
inductive ExtAction
  | requestExitOn (inst : Nat) (retcode : Int)
  | tmStop (id : Nat)
  | tmJoin (id : Nat) (ms : Nat)
  | tmUnregister (att : String)
deriving DecidableEq, Repr

/-- The bounded wait loop of `stopExtension`
(src/mavlink-extensions/ExtensionManager.cpp:540-561): up to `fuel` (= 20)
reads of the record's `mainloopInstance`; each failed read is followed by a
50 ms sleep.  `published k` is the pointer visible at the `k`-th read (the
extension thread stores it concurrently).  Returns the pointer found (if
any) and the number of sleeps performed. -/
def waitForInstance (published : Nat → Option Nat) :
    Nat → Nat → Option Nat × Nat
  | _, 0 => (none, 0)
  | attempt, fuel + 1 =>
      match published attempt with
      | some p => (some p, 0)
      | none =>
          let r := waitForInstance published (attempt + 1) fuel
          (r.1, r.2 + 1)

/-- Mark the named record not running and clear its instance pointer
(`it->second.isRunning = false; it->second.mainloopInstance = nullptr`). -/
def setExtensionStopped (exts : List (String × ExtensionInfo)) (name : String) :
    List (String × ExtensionInfo) :=
  exts.map (fun p =>
    if p.1 == name then
      (p.1, { p.2 with isRunning := false, mainloopInstance := none })
    else p)

/-- `ExtensionManager::stopExtension`
(src/mavlink-extensions/ExtensionManager.cpp:518-620): unknown name →
`false`; already stopped → `true`; otherwise wait (bounded) for the
published instance pointer; if it never appears, force-stop via the thread
manager (2 s join) and report `false`; if it appears, `request_exit(0)` on
that instance, 5 s bounded join, unregister, mark stopped, report `true`.
Returns `(result, actions, sleep count, new state)`. -/
def stopExtension (st : ExtensionManagerState) (name : String)
    (published : Nat → Option Nat) :
    Bool × List ExtAction × Nat × ExtensionManagerState :=
  match lookupKey st.extensions name with
  | none => (false, [], 0, st)
  | some info =>
      if info.isRunning = false then (true, [], 0, st)
      else
        let attachmentId := "extension_" ++ name
        let w := waitForInstance published 0 20
        match w.1 with
        | none =>
            (false,
              [ExtAction.tmStop info.threadId, ExtAction.tmJoin info.threadId 2000,
               ExtAction.tmUnregister attachmentId],
              w.2,
              { st with extensions := setExtensionStopped st.extensions name })
        | some inst =>
            (true,
              [ExtAction.requestExitOn inst 0, ExtAction.tmJoin info.threadId 5000,
               ExtAction.tmUnregister attachmentId],
              w.2,
              { st with extensions := setExtensionStopped st.extensions name })

/-- The claim-side characterisation of auto-assignment, following the spec's
words: the *first* endpoint of the type's pool whose name is not already
claimed by an existing extension (`none` when the pool is exhausted).  It is
compared against the source-translated `firstFreePoint` below. -/
def firstFreeSpec (names : List String) (marker : String) (used : List String) :
    Option String :=
  (names.filter (fun n => strContains n marker && !(used.contains n))).head?

lemma firstFreePoint_eq_spec (names : List String) (marker : String)
    (used : List String) :
    firstFreePoint names marker used = (firstFreeSpec names marker used).getD "" := by
  induction names with
  | nil => rfl
  | cons n rest ih =>
      by_cases h : (strContains n marker && !(used.contains n)) = true
      · unfold firstFreePoint firstFreeSpec
        rw [if_pos h]
        simp only [List.filter_cons]
        rw [if_pos h]
        rfl
      · unfold firstFreePoint firstFreeSpec
        rw [if_neg h]
        simp only [List.filter_cons]
        rw [if_neg h]
        exact ih

lemma firstFreePoint_not_used (names : List String) (marker : String)
    (used : List String) :
    firstFreePoint names marker used = ""
      ∨ firstFreePoint names marker used ∉ used := by
  induction names with
  | nil => exact Or.inl rfl
  | cons n rest ih =>
      by_cases h : (strContains n marker && !(used.contains n)) = true
      · right
        unfold firstFreePoint
        rw [if_pos h]
        have h2 := h
        rw [Bool.and_eq_true] at h2
        obtain ⟨_, hn⟩ := h2
        rw [Bool.not_eq_true'] at hn
        simp at hn
        exact hn
      · unfold firstFreePoint
        rw [if_neg h]
        exact ih

lemma assignAvailable_not_used (exts : List (String × ExtensionInfo))
    (g : Configuration) (t : ExtensionType) :
    assignAvailableExtensionPoint exts g t = ""
      ∨ assignAvailableExtensionPoint exts g t ∉ usedPoints exts :=
  firstFreePoint_not_used _ _ _

lemma usedPoints_append (exts : List (String × ExtensionInfo)) (n : String)
    (info : ExtensionInfo) :
    usedPoints (exts ++ [(n, info)])
      = usedPoints exts ++
          (if info.config.assigned_extension_point = "" then []
           else [info.config.assigned_extension_point]) := by
  unfold usedPoints
  rw [List.filterMap_append]
  cases h : info.config.assigned_extension_point == "" <;> simp_all

lemma createExtension_state (st : ExtensionManagerState) (config : ExtensionConfig)
    (nid rp : Nat) :
    ((createExtension st config nid rp).2.extensions = st.extensions)
    ∨ (∃ info : ExtensionInfo, ∃ g : Configuration,
        (createExtension st config nid rp).2.extensions
            = st.extensions ++ [(config.name, info)]
        ∧ st.globalConfig = some g
        ∧ info.config.assigned_extension_point
            = assignAvailableExtensionPoint st.extensions g config.extype
        ∧ assignAvailableExtensionPoint st.extensions g config.extype ≠ "") := by
  unfold createExtension
  cases h1 : lookupKey st.extensions config.name with
  | some v => exact Or.inl rfl
  | none =>
      cases h2 : st.globalConfig with
      | none => exact Or.inl rfl
      | some g =>
          by_cases hpt : assignAvailableExtensionPoint st.extensions g config.extype = ""
          · simp [hpt]
          · simp only [hpt, if_false]
            by_cases hval : validateExtensionConfig
                { config with assigned_extension_point :=
                    assignAvailableExtensionPoint st.extensions g config.extype }
                  = false
            · simp [hval]
            · simp only [hval, if_false]
              cases h3 : buildThreadConfig g
                  { config with assigned_extension_point :=
                      assignAvailableExtensionPoint st.extensions g config.extype } rp with
              | error msg => exact Or.inl rfl
              | ok tc =>
                  right
                  refine ⟨_, g, rfl, rfl, rfl, hpt⟩

/-- C6.  `createExtension` (i) produces the same result whatever
`assigned_extension_point` the client supplied; (ii) the auto-assignment is
the *first* endpoint of the type's pool in the primary configuration whose
name is not claimed by an existing extension; (iii) when no pool endpoint is
free it fails with the `No available extension points` error and leaves the
state unchanged; and (iv) if no two recorded extensions share an assigned
point beforehand, none do afterwards. -/
theorem createExtension_auto_assigns_first_free (st : ExtensionManagerState)
    (config : ExtensionConfig) (g : Configuration) (nid rp : Nat)
    (hg : st.globalConfig = some g) :
    (∀ p1 p2 : String,
        createExtension st { config with assigned_extension_point := p1 } nid rp
          = createExtension st { config with assigned_extension_point := p2 } nid rp)
    ∧ (assignAvailableExtensionPoint st.extensions g config.extype
        = (firstFreeSpec (extensionPool g config.extype) (poolMarker config.extype)
            (usedPoints st.extensions)).getD "")
    ∧ (lookupKey st.extensions config.name = none →
        firstFreeSpec (extensionPool g config.extype) (poolMarker config.extype)
            (usedPoints st.extensions) = none →
        createExtension st config nid rp = ("No available extension points", st))
    ∧ ((usedPoints st.extensions).Nodup →
        (usedPoints ((createExtension st config nid rp).2.extensions)).Nodup) := by
  refine ⟨fun p1 p2 => rfl, firstFreePoint_eq_spec _ _ _, ?_, ?_⟩
  · intro hname hnone
    have hempty : assignAvailableExtensionPoint st.extensions g config.extype = "" := by
      unfold assignAvailableExtensionPoint
      rw [firstFreePoint_eq_spec, hnone]
      rfl
    unfold createExtension
    rw [hname, hg]
    simp [hempty]
  · intro hnd
    rcases createExtension_state st config nid rp with heq | ⟨info, g', heq, hg', hassign, hne⟩
    · rw [heq]
      exact hnd
    · rw [heq, usedPoints_append st.extensions config.name info]
      have hni : info.config.assigned_extension_point ≠ "" := by
        rw [hassign]
        exact hne
      rw [if_neg hni]
      rw [List.nodup_append]
      refine ⟨hnd, List.nodup_singleton _, ?_⟩
      intro a ha hamem
      rcases List.mem_singleton.mp hamem with rfl
      rw [hassign] at ha
      rcases assignAvailable_not_used st.extensions g' config.extype with hz | hnotin
      · exact hne hz
      · exact hnotin ha

/-- Empty secondary-router configuration (placeholder thread config). -/
def c6EmptyThreadConfig : Configuration :=
  { udp_configs := [], tcp_configs := [], tcp_port := 0 }

/-- Primary configuration with two UDP extension-point slots. -/
def c6Global : Configuration :=
  { udp_configs :=
      [{ name := "udp-extension-point-1", address := "0.0.0.0", port := 14600,
         mode := UdpMode.Server },
       { name := "udp-extension-point-2", address := "0.0.0.0", port := 14601,
         mode := UdpMode.Server }],
    tcp_configs := [], tcp_port := 5760 }

/-- An existing extension holding `udp-extension-point-1`. -/
def c6Existing : ExtensionInfo :=
  { name := "e1",
    config := { name := "e1", extype := ExtensionType.UDP, address := "127.0.0.1",
                port := 20000, assigned_extension_point := "udp-extension-point-1",
                extension_thread_config := c6EmptyThreadConfig },
    threadId := 3, isRunning := true, mainloopInstance := some 11 }

/-- Extension-manager state for the C6 witness. -/
def c6State : ExtensionManagerState :=
  { extensions := [("e1", c6Existing)], globalConfig := some c6Global }

/-- A creation request supplying a bogus `assigned_extension_point` that the
manager must ignore. -/
def c6NewConfig : ExtensionConfig :=
  { name := "e2", extype := ExtensionType.UDP, address := "127.0.0.1",
    port := 20001, assigned_extension_point := "ignored-value",
    extension_thread_config := c6EmptyThreadConfig }

/-- Witness for `createExtension_auto_assigns_first_free`: with slot 1 taken,
a new UDP extension is assigned `udp-extension-point-2`, creation succeeds,
and assigned points stay pairwise distinct. -/
theorem createExtension_auto_assigns_first_free_witness :
    (c6State.globalConfig = some c6Global)
    ∧ (assignAvailableExtensionPoint c6State.extensions c6Global ExtensionType.UDP
        = "udp-extension-point-2")
    ∧ ((usedPoints c6State.extensions).Nodup)
    ∧ ((usedPoints ((createExtension c6State c6NewConfig 7 55123).2.extensions)).Nodup)
    ∧ ((createExtension c6State c6NewConfig 7 55123).1 = "Success") := by
  have h := createExtension_auto_assigns_first_free c6State c6NewConfig c6Global
    7 55123 rfl
  exact ⟨rfl, by rfl, by decide, h.2.2.2 (by decide), by rfl⟩

lemma waitForInstance_sleeps_le (published : Nat → Option Nat) :
    ∀ fuel attempt, (waitForInstance published attempt fuel).2 ≤ fuel := by
  intro fuel
  induction fuel with
  | zero =>
      intro attempt
      simp [waitForInstance]
  | succ f ih =>
      intro attempt
      unfold waitForInstance
      cases published attempt with
      | some p => simp
      | none =>
          simp only []
          have := ih (attempt + 1)
          omega

lemma lookup_setExtensionStopped (exts : List (String × ExtensionInfo))
    (name : String) :
    lookupKey (setExtensionStopped exts name) name
      = (lookupKey exts name).map
          (fun i => { i with isRunning := false, mainloopInstance := none }) := by
  induction exts with
  | nil => rfl
  | cons p rest ih =>
      cases hb : p.1 == name with
      | true =>
          have hstep : setExtensionStopped (p :: rest) name
              = (p.1, { p.2 with isRunning := false, mainloopInstance := none })
                  :: setExtensionStopped rest name := by
            unfold setExtensionStopped
            rw [List.map_cons, if_pos hb]
          rw [hstep]
          unfold lookupKey
          have e1 : List.find? (fun q => q.1 == name)
              ((p.1, { p.2 with isRunning := false, mainloopInstance := none })
                :: setExtensionStopped rest name)
              = some (p.1, { p.2 with isRunning := false, mainloopInstance := none }) :=
            List.find?_cons_of_pos _ hb
          have e2 : List.find? (fun q => q.1 == name) (p :: rest) = some p :=
            List.find?_cons_of_pos _ hb
          rw [e1, e2]
          rfl
      | false =>
          have hstep : setExtensionStopped (p :: rest) name
              = p :: setExtensionStopped rest name := by
            unfold setExtensionStopped
            rw [List.map_cons, if_neg (by rw [hb]; exact Bool.false_ne_true)]
          rw [hstep]
          unfold lookupKey
          have e1 : List.find? (fun q => q.1 == name)
              (p :: setExtensionStopped rest name)
              = List.find? (fun q => q.1 == name) (setExtensionStopped rest name) := by
            simp [List.find?_cons, hb]
          have e2 : List.find? (fun q => q.1 == name) (p :: rest)
              = List.find? (fun q => q.1 == name) rest := by
            simp [List.find?_cons, hb]
          rw [e1, e2]
          simpa [lookupKey] using ih

/-- C7.  `stopExtension(name)` on an existing running extension whose thread
publishes its router-instance pointer within the 20-poll bound: the sleep
count never exceeds 20 iterations (of 50 ms); a `request_exit(0)` is issued
on exactly the published instance — every `requestExitOn` action in the
effect list targets that instance with retcode 0, so in particular the
primary singleton is never signalled; the thread is joined with a 5-second
bound and unregistered; and the record is marked not running with its
instance pointer cleared. -/
theorem stopExtension_signals_only_published_instance
    (st : ExtensionManagerState) (name : String)
    (published : Nat → Option Nat) (info : ExtensionInfo) (inst : Nat)
    (hlook : lookupKey st.extensions name = some info)
    (hrun : info.isRunning = true)
    (hpub : (waitForInstance published 0 20).1 = some inst) :
    ((stopExtension st name published).1 = true)
    ∧ ((stopExtension st name published).2.1
        = [ExtAction.requestExitOn inst 0, ExtAction.tmJoin info.threadId 5000,
           ExtAction.tmUnregister ("extension_" ++ name)])
    ∧ ((stopExtension st name published).2.2.1 ≤ 20)
    ∧ (∀ j r, ExtAction.requestExitOn j r ∈ (stopExtension st name published).2.1 →
        j = inst ∧ r = 0)
    ∧ (lookupKey ((stopExtension st name published).2.2.2).extensions name
        = some { info with isRunning := false, mainloopInstance := none }) := by
  have hred : stopExtension st name published
      = (true,
          [ExtAction.requestExitOn inst 0, ExtAction.tmJoin info.threadId 5000,
           ExtAction.tmUnregister ("extension_" ++ name)],
          (waitForInstance published 0 20).2,
          { st with extensions := setExtensionStopped st.extensions name }) := by
    unfold stopExtension
    rw [hlook]
    simp only [hrun]
    rw [hpub]
    simp
  rw [hred]
  refine ⟨rfl, rfl, waitForInstance_sleeps_le published 20 0, ?_, ?_⟩
  · intro j r hmem
    rcases List.mem_cons.mp hmem with heq | hmem2
    · cases heq
      exact ⟨rfl, rfl⟩
    · rcases List.mem_cons.mp hmem2 with heq | hmem3
      · exact absurd heq (by simp)
      · rcases List.mem_singleton.mp hmem3 with heq
        exact absurd heq (by simp)
  · rw [lookup_setExtensionStopped, hlook]
    rfl

/-- Extension-manager state for the C7 witness: one running extension `x`
with thread id 9. -/
def c7State : ExtensionManagerState :=
  { extensions :=
      [("x", { name := "x",
               config := { name := "x", extype := ExtensionType.UDP,
                           address := "127.0.0.1", port := 20000,
                           assigned_extension_point := "udp-extension-point-1",
                           extension_thread_config := c6EmptyThreadConfig },
               threadId := 9, isRunning := true, mainloopInstance := none })],
    globalConfig := some c6Global }

/-- The publication oracle of the C7 witness: the extension thread publishes
its instance pointer (id 7) from the third poll on. -/
def c7Published : Nat → Option Nat :=
  fun k => if 2 ≤ k then some 7 else none

/-- Witness for `stopExtension_signals_only_published_instance`: stopping
`x` with pointer 7 published at the third poll sleeps twice, signals
instance 7 only, joins thread 9 with a 5 s bound and unregisters it. -/
theorem stopExtension_signals_only_published_instance_witness :
    (lookupKey c7State.extensions "x"
      = some { name := "x",
               config := { name := "x", extype := ExtensionType.UDP,
                           address := "127.0.0.1", port := 20000,
                           assigned_extension_point := "udp-extension-point-1",
                           extension_thread_config := c6EmptyThreadConfig },
               threadId := 9, isRunning := true, mainloopInstance := none })
    ∧ ((waitForInstance c7Published 0 20).1 = some 7)
    ∧ ((stopExtension c7State "x" c7Published).1 = true)
    ∧ ((stopExtension c7State "x" c7Published).2.1
        = [ExtAction.requestExitOn 7 0, ExtAction.tmJoin 9 5000,
           ExtAction.tmUnregister "extension_x"])
    ∧ ((stopExtension c7State "x" c7Published).2.2.1 ≤ 20) := by
  have h := stopExtension_signals_only_published_instance c7State "x" c7Published
    { name := "x",
      config := { name := "x", extype := ExtensionType.UDP,
                  address := "127.0.0.1", port := 20000,
                  assigned_extension_point := "udp-extension-point-1",
                  extension_thread_config := c6EmptyThreadConfig },
      threadId := 9, isRunning := true, mainloopInstance := none }
    7 rfl rfl rfl
  exact ⟨rfl, rfl, h.1, h.2.1, h.2.2.1⟩
